import Mathlib

/-!
Verification development for the email-sync-service repository.

The definitions below are shallow embeddings of the TypeScript sources:
  * `full-sync.service.ts`  — FullSyncService (startFullSync, processFullSync,
    syncEntireFolder, executeWithBackoff); an older variant of the same class
    (here suffixed `P8`) ships in the repository with a non-retrying
    executeWithBackoff and an unconditional token refresh,
  * `sync-worker.service.ts` — SyncWorkerService (claimNewJobs,
    claimAbandonedJobs, processJob),
  * `incremental-sync.service.ts` — IncrementalSyncService
    (performIncrementalSync, processHistoryChanges),
  * `sync.service.ts` — SyncService (syncFolderEmails, syncEmailsOnDemand); a
    second variant of this class ships in the repository with a fullSync
    pre-clear that deletes by the folder-type string,
  * `gmail.service.ts` — GmailService (getEmails),
  * the SQL migration — the schedule_incremental_syncs stored procedure.

Database tables are lists of rows; each Supabase round trip (select, insert,
conditional update) is one atomic step, and concurrency is modelled by
interleaving those steps.
-/

namespace EmailSync

/-- Substring matcher used to model the JavaScript `String.prototype.includes`
calls in the sources (`error.message.includes("quota")`, etc.).
`matchesAt pat s` checks that `pat` occurs at the head of `s`. -/
def matchesAt : List Char → List Char → Bool
  | [], _ => true
  | _ :: _, [] => false
  | a :: as, b :: bs => a == b && matchesAt as bs

/-- Checks whether `pat` occurs anywhere in the character list. -/
def hasSubList (pat : List Char) : List Char → Bool
  | [] => matchesAt pat []
  | c :: rest => matchesAt pat (c :: rest) || hasSubList pat rest

/-- Models JavaScript `s.includes(pat)`. -/
def strContainsSub (s pat : String) : Bool :=
  hasSubList pat.data s.data

/-- Status values of a `sync_operations` row (the job queue table). -/
inductive JobStatus
  | inProgress
  | completed
  | failed
  | cancelled
deriving DecidableEq, Repr

/-- One row of the `sync_operations` table, restricted to the columns the
claims are about.  `updated_stale` models the predicate
`updated_at < now() - lock_timeout` used by `claimAbandonedJobs`; a claiming
update writes `updated_at = now()`, i.e. makes the row non-stale. -/
structure SyncOp where
  id : Nat
  connection_id : String
  sync_type : String
  status : JobStatus
  worker_id : Option String
  updated_stale : Bool
deriving DecidableEq, Repr

/-- Predicate of the `status = 'in_progress'` queries filtered on one
connection (the check in `startFullSync` and in the stored procedure). -/
def inProgressFor (c : String) (j : SyncOp) : Bool :=
  j.connection_id == c && j.status == JobStatus.inProgress

/-- Number of in-progress `sync_operations` rows of a connection. -/
def inProgressCount (tbl : List SyncOp) (c : String) : Nat :=
  (tbl.filter (inProgressFor c)).length

/-- Row inserted by `startFullSync` (full-sync.service.ts lines 74-92); the
database generates the id, modelled as the current table length. -/
def newFullOp (tbl : List SyncOp) (c : String) : SyncOp :=
  { id := tbl.length, connection_id := c, sync_type := "full",
    status := JobStatus.inProgress, worker_id := none, updated_stale := false }

/-- Row inserted by the `schedule_incremental_syncs` stored procedure. -/
def newIncOp (tbl : List SyncOp) (c : String) : SyncOp :=
  { id := tbl.length, connection_id := c, sync_type := "incremental",
    status := JobStatus.inProgress, worker_id := none, updated_stale := false }

/-- Return value of `startFullSync`. -/
structure StartFullSyncResult where
  success : Bool
  message : String
  syncId : Option Nat
deriving DecidableEq, Repr

/-- The enqueue path of `FullSyncService.startFullSync`
(full-sync.service.ts lines 40-94) with its two database statements — the
`single()` select for an existing in-progress row of the connection, then the
insert — executed back to back as one operation.  Returns the new table and
the HTTP-level result. -/
def startFullSync (tbl : List SyncOp) (c : String) :
    List SyncOp × StartFullSyncResult :=
  match tbl.find? (inProgressFor c) with
  | some existing =>
      (tbl, { success := false,
              message := "A sync operation is already in progress for this connection",
              syncId := some existing.id })
  | none =>
      (tbl ++ [newFullOp tbl c],
       { success := true, message := "Full sync started successfully",
         syncId := some (newFullOp tbl c).id })

/-- The `schedule_incremental_syncs` stored procedure (SQL migration lines
724-777): for each due connection, insert an incremental in-progress job
unless the connection already has an in-progress row.  The procedure runs in
one transaction; its own inserts are visible to the later NOT EXISTS checks,
which the fold reproduces. -/
def schedule_incremental_syncs (tbl : List SyncOp) (due : List String) :
    List SyncOp :=
  due.foldl
    (fun t c => if t.any (inProgressFor c) then t else t ++ [newIncOp t c]) tbl

/-- State of one in-flight `startFullSync` call, between its database
statements: it has either not yet run the select, or run it (remembering
whether an in-progress row was seen), or finished. -/
inductive EnqPhase
  | start
  | checked (sawExisting : Bool)
  | done
deriving DecidableEq, Repr

/-- One database statement of an in-flight `startFullSync` call for
connection `c`: the select in phase `start`, the insert (skipped when a row
was seen) in phase `checked`. -/
def enqStep (c : String) (tbl : List SyncOp) :
    EnqPhase → List SyncOp × EnqPhase
  | EnqPhase.start => (tbl, EnqPhase.checked (tbl.any (inProgressFor c)))
  | EnqPhase.checked sawExisting =>
      if sawExisting then (tbl, EnqPhase.done)
      else (tbl ++ [newFullOp tbl c], EnqPhase.done)
  | EnqPhase.done => (tbl, EnqPhase.done)

/-- Interleaved execution of two concurrent `startFullSync` calls for the
same connection: the schedule picks, at each step, which call issues its next
database statement (`true` = first caller). -/
def runTwoEnqueues (c : String) :
    List Bool → List SyncOp × EnqPhase × EnqPhase →
    List SyncOp × EnqPhase × EnqPhase
  | [], s => s
  | pick :: rest, (tbl, pa, pb) =>
      if pick then
        let r := enqStep c tbl pa
        runTwoEnqueues c rest (r.1, r.2, pb)
      else
        let r := enqStep c tbl pb
        runTwoEnqueues c rest (r.1, pa, r.2)

/-! ### GmailService.getEmails and the SyncService folder sync -/

/-- A message produced by `parseGmailMessage`; only the id matters to the
claims, the remaining parsed fields are opaque payload. -/
structure ParsedEmail where
  id : String
deriving DecidableEq, Repr

/-- The value returned by `GmailService.getEmails` (gmail.service.ts lines
87-144): a JavaScript ARRAY of parsed messages, with a `nextPageToken`
property assigned onto the array object (line 137).  The early return at line
107 is a plain `[]` with no token property, modelled as `none`. -/
structure GetEmailsReturn where
  arrayElems : List ParsedEmail
  nextPageToken : Option String
deriving DecidableEq, Repr

/-- `GmailService.getEmails`, abstracted over the provider responses:
`listIds` are the ids in `response.data.messages` from `messages.list`,
`tok` its `nextPageToken`, and `fetch` the per-id outcome of
`messages.get` + `parseGmailMessage` (`none` models a fetch or parse
failure, filtered out at line 132). -/
def getEmails (listIds : List String) (tok : Option String)
    (fetch : String → Option ParsedEmail) : GetEmailsReturn :=
  if listIds.isEmpty then { arrayElems := [], nextPageToken := none }
  else { arrayElems := listIds.filterMap fetch, nextPageToken := tok }

/-- JavaScript property access `response.messages` on the value returned by
`getEmails`.  That value is an array (with only `nextPageToken` attached); an
array has no `messages` property, so the access yields `undefined` for every
return value of `getEmails`. -/
def messagesField (_ : GetEmailsReturn) : Option (List ParsedEmail) :=
  none

/-- Result-and-effect of `SyncService.syncFolderEmails` (sync.service.ts
lines 251-304) after `getEmails` returned: the `(success, count)` pair of the
early return or the final return, and the list of messages passed to
`cacheEmails` (empty when no write happens). -/
def syncFolderEmails (resp : GetEmailsReturn) :
    (Bool × Nat) × List ParsedEmail :=
  match messagesField resp with
  | none => ((true, 0), [])
  | some msgs =>
      if msgs.length == 0 then ((true, 0), [])
      else ((true, msgs.length), msgs)

/-- Return shape of `SyncService.syncEmailsOnDemand` (sync.service.ts lines
306-413); `nextPageToken`/`hasMore` are absent (`none`/`false`) on the
no-emails early return. -/
structure OnDemandResult where
  success : Bool
  count : Nat
  nextPageToken : Option String
  hasMore : Bool
deriving DecidableEq, Repr

/-- The tail of `SyncService.syncEmailsOnDemand` (sync.service.ts lines
378-408) after `getEmails` returned: the response value and the messages
written to the cache. -/
def syncEmailsOnDemand (resp : GetEmailsReturn) :
    OnDemandResult × List ParsedEmail :=
  match messagesField resp with
  | none =>
      ({ success := true, count := 0, nextPageToken := none, hasMore := false },
       [])
  | some msgs =>
      if msgs.length == 0 then
        ({ success := true, count := 0, nextPageToken := none, hasMore := false },
         [])
      else
        ({ success := true, count := msgs.length,
           nextPageToken := resp.nextPageToken,
           hasMore := resp.nextPageToken.isSome }, msgs)

/-! ### IncrementalSyncService -/

/-- Tokens returned by `GmailService.refreshAccessToken`. -/
structure TokenResp where
  accessToken : String
  refreshToken : Option String
  expiryDate : Int
deriving DecidableEq, Repr

/-- One entry of the Gmail `history.list` response, reduced to the message
ids the code reads; a missing `message.id` is already replaced by the empty
string (the `message.message?.id || ""` defaulting in the source). -/
structure HistoryEntry where
  messagesAdded : List String
  messagesDeleted : List String
  labelsAdded : List String
  labelsRemoved : List String
deriving DecidableEq, Repr

/-- Aggregate of `getHistoryChanges`: all pages concatenated plus the
`historyId` of the last response. -/
structure HistoryChanges where
  changes : List HistoryEntry
  newHistoryId : Option String
deriving DecidableEq, Repr

/-- The `email_connections` columns read by `performIncrementalSync`. -/
structure IncConn where
  latest_history_id : Option String
  token_expires_at : Int
  access_token : String
  refresh_token : String
deriving DecidableEq, Repr

/-- Environment of one `performIncrementalSync` run: the current time and
the outcomes of the two fallible provider calls the run may make
(`refreshAccessToken` and the paged `history.list`). -/
structure IncEnv where
  now : Int
  refresh : Except String TokenResp
  history : Except String HistoryChanges
deriving Repr

/-- Result object returned by `performIncrementalSync` (absent JavaScript
fields are `none`). -/
structure IncResult where
  success : Bool
  requiresFullSync : Bool
  changesDetected : Option Bool
  message : Option String
  newHistoryId : Option String
deriving DecidableEq, Repr

/-- Connection columns written by a `performIncrementalSync` run:
`finalHistoryId` is `email_connections.latest_history_id` after the call and
`lastSyncedTouched` records whether `last_synced_at` was rewritten. -/
structure IncEffects where
  finalHistoryId : Option String
  lastSyncedTouched : Bool
deriving DecidableEq, Repr

/-- Result for the missing-cursor early return (incremental-sync.service.ts
lines 500-508). -/
def noHistoryResult : IncResult :=
  { success := false, requiresFullSync := true, changesDetected := none,
    message := some "No history ID available, full sync required",
    newHistoryId := none }

/-- Result for the no-changes return (lines 534-547). -/
def noChangesResult : IncResult :=
  { success := true, requiresFullSync := false, changesDetected := some false,
    message := some "No changes detected since last sync",
    newHistoryId := none }

/-- Result for the catch-branch return on an error whose message contains
"Invalid historyId" (lines 573-582). -/
def invalidHistoryResult : IncResult :=
  { success := false, requiresFullSync := true, changesDetected := none,
    message := some "History ID is invalid or expired, full sync required",
    newHistoryId := none }

/-- JavaScript `a || b` on a nullable string: `null`, `undefined` and `""`
all fall through to the default (used for `result.newHistoryId || historyId`
at line 561). -/
def jsOrString (o : Option String) (d : String) : String :=
  match o with
  | none => d
  | some s => if s == "" then d else s

/-- Steps of `performIncrementalSync` after the cursor check and token
refresh (incremental-sync.service.ts lines 531-572): run `history.list`,
return early when no change arrived, otherwise process the changes and
persist `result.newHistoryId || historyId`. -/
def incAfterToken (historyId : String) (env : IncEnv) :
    Except String (IncResult × IncEffects) :=
  match env.history with
  | Except.error e => Except.error e
  | Except.ok hc =>
      if hc.changes.length == 0 then
        Except.ok (noChangesResult,
          { finalHistoryId := some historyId, lastSyncedTouched := true })
      else
        Except.ok
          ({ success := true, requiresFullSync := false,
             changesDetected := some true, message := none,
             newHistoryId := hc.newHistoryId },
           { finalHistoryId := some (jsOrString hc.newHistoryId historyId),
             lastSyncedTouched := true })

/-- The try-block of `performIncrementalSync` (lines 483-572): missing
cursor short-circuits; an expired token triggers `refreshAccessToken`, whose
failure is thrown; then the history steps run. -/
def incBody (conn : IncConn) (env : IncEnv) :
    Except String (IncResult × IncEffects) :=
  match conn.latest_history_id with
  | none =>
      Except.ok (noHistoryResult,
        { finalHistoryId := none, lastSyncedTouched := false })
  | some historyId =>
      if conn.token_expires_at ≤ env.now then
        match env.refresh with
        | Except.error e => Except.error e
        | Except.ok _ => incAfterToken historyId env
      else incAfterToken historyId env

/-- `IncrementalSyncService.performIncrementalSync` (lines 480-587): the
try-block wrapped in the catch that turns any error whose message contains
"Invalid historyId" into a `requiresFullSync` result and rethrows every other
error. -/
def performIncrementalSync (conn : IncConn) (env : IncEnv) :
    Except String (IncResult × IncEffects) :=
  match incBody conn env with
  | Except.ok r => Except.ok r
  | Except.error e =>
      if strContainsSub e "Invalid historyId" then
        Except.ok (invalidHistoryResult,
          { finalHistoryId := conn.latest_history_id,
            lastSyncedTouched := false })
      else Except.error e

/-! ### SyncWorkerService.processJob, incremental branch -/

/-- The `sync_operations` update written by `processJob` when it finishes a
job (sync-worker.service.ts lines 354-362 and 381-388); the failure update
writes no `progress`. -/
structure JobUpdateRow where
  status : JobStatus
  progress : Option Nat
  status_message : String
deriving DecidableEq, Repr

/-- The incremental branch of `SyncWorkerService.processJob` (lines
346-362 and the catch at 377-399): await `performIncrementalSync`; when it
returns, write the completed update; when it throws, write the failed
update.  The second component records whether a follow-up full-sync job was
enqueued — no branch inserts one. -/
def processJob_incremental (incOutcome : Except String (IncResult × IncEffects)) :
    JobUpdateRow × Bool :=
  match incOutcome with
  | Except.ok _ =>
      ({ status := JobStatus.completed, progress := some 100,
         status_message := "Incremental sync completed successfully" }, false)
  | Except.error e =>
      ({ status := JobStatus.failed, progress := none,
         status_message := "Error: " ++ e }, false)

/-! ### SyncWorkerService job claiming

The two claim paths issue their select and their conditional update as
separate Supabase statements, and call `processJob` whenever the update
reported no transport error — the row count of the update is never
inspected (a PostgREST update that matches zero rows succeeds with an empty
result).  The model therefore executes the update and the processJob call
as one step that always runs after a successful select. -/

/-- Select predicate of `claimAbandonedJobs` (sync-worker.service.ts lines
227-234): `status = 'in_progress' AND updated_at < now() - 10 min`. -/
def abandonedSelect (j : SyncOp) : Bool :=
  j.status == JobStatus.inProgress && j.updated_stale

/-- Select predicate of `claimNewJobs` (lines 278-285):
`worker_id IS NULL AND status = 'in_progress'`. -/
def newSelect (j : SyncOp) : Bool :=
  j.worker_id == none && j.status == JobStatus.inProgress

/-- Conditional update of `claimNewJobs` (lines 296-304):
`UPDATE ... SET worker_id = w, updated_at = now() WHERE id = j.id AND
worker_id IS NULL`; a row that no longer matches is left unchanged. -/
def claimNewUpdate (w : String) (j : SyncOp) : SyncOp :=
  if j.worker_id == none then
    { j with worker_id := some w, updated_stale := false }
  else j

/-- Conditional update of `claimAbandonedJobs` (lines 245-253):
`UPDATE ... SET worker_id = w, updated_at = now() WHERE id = j.id AND
status = 'in_progress'` — conditioned on the status only, not on the
previous `worker_id` or on `updated_at` still being stale. -/
def claimAbandonedUpdate (w : String) (j : SyncOp) : SyncOp :=
  if j.status == JobStatus.inProgress then
    { j with worker_id := some w, updated_stale := false }
  else j

/-- Program counter of one worker running a claim path over a single job
row: before its select, after a select that matched (or not), done. -/
inductive ClaimPhase
  | start
  | selected (matched : Bool)
  | done
deriving DecidableEq, Repr

/-- Shared state of two workers racing one `sync_operations` row:
the row, each worker's phase, and the list of workers that invoked
`processJob` on the row, in order. -/
structure ClaimRace where
  job : SyncOp
  pa : ClaimPhase
  pb : ClaimPhase
  executedBy : List String
deriving DecidableEq, Repr

/-- One step of a worker `w` on the abandoned-jobs path: its select, or its
conditional update immediately followed by `processJob` (the code calls
`processJob` whenever the update returned no error, which a zero-row update
also does). -/
def reclaimStep (w : String) (ph : ClaimPhase) (job : SyncOp)
    (executed : List String) : ClaimPhase × SyncOp × List String :=
  match ph with
  | ClaimPhase.start => (ClaimPhase.selected (abandonedSelect job), job, executed)
  | ClaimPhase.selected matched =>
      if matched then
        (ClaimPhase.done, claimAbandonedUpdate w job, executed ++ [w])
      else (ClaimPhase.done, job, executed)
  | ClaimPhase.done => (ClaimPhase.done, job, executed)

/-- One step of a worker `w` on the new-jobs path. -/
def newClaimStep (w : String) (ph : ClaimPhase) (job : SyncOp)
    (executed : List String) : ClaimPhase × SyncOp × List String :=
  match ph with
  | ClaimPhase.start => (ClaimPhase.selected (newSelect job), job, executed)
  | ClaimPhase.selected matched =>
      if matched then
        (ClaimPhase.done, claimNewUpdate w job, executed ++ [w])
      else (ClaimPhase.done, job, executed)
  | ClaimPhase.done => (ClaimPhase.done, job, executed)

/-- Interleaved run of workers `wa` and `wb`, both executing the step
function `step` (one of the two claim paths) on the same row; the schedule
picks who moves (`true` = `wa`). -/
def runClaimRace (step : String → ClaimPhase → SyncOp → List String →
    ClaimPhase × SyncOp × List String) (wa wb : String) :
    List Bool → ClaimRace → ClaimRace
  | [], s => s
  | pick :: rest, s =>
      if pick then
        let r := step wa s.pa s.job s.executedBy
        runClaimRace step wa wb rest
          { job := r.2.1, pa := r.1, pb := s.pb, executedBy := r.2.2 }
      else
        let r := step wb s.pb s.job s.executedBy
        runClaimRace step wa wb rest
          { job := r.2.1, pa := s.pa, pb := r.1, executedBy := r.2.2 }

/-! ### FullSyncService.executeWithBackoff and the folder loop -/

/-- Outcome of one attempt of the wrapped provider call: a value, or a
thrown error carrying an optional numeric `code` and a message. -/
inductive CallOutcome (α : Type)
  | ok (v : α)
  | err (code : Option Nat) (msg : String)
deriving DecidableEq, Repr

/-- The rate-limit test of `executeWithBackoff` (full-sync.service.ts lines
493-499): `error.code === 429`, or the message contains "quota", "rate" or
"limit". -/
def isRateLimitErr (code : Option Nat) (msg : String) : Bool :=
  code == some 429 ||
    (strContainsSub msg "quota" || strContainsSub msg "rate" ||
      strContainsSub msg "limit")

/-- Whether an attempt outcome is a rate-limit error. -/
def rlOutcome {α : Type} : CallOutcome α → Bool
  | CallOutcome.ok _ => false
  | CallOutcome.err code msg => isRateLimitErr code msg

/-- Observable run of `executeWithBackoff`: its result, the number of times
the wrapped function was invoked, and the delays slept between retries, in
milliseconds and in order. -/
structure BackoffRun (α : Type) where
  result : Except String α
  calls : Nat
  delays : List Nat
deriving Repr

/-- The retry loop of `executeWithBackoff` (lines 488-512).  `fn i` is the
outcome of attempt `i` and `jitter i` models `Math.random() * 1000` for that
attempt.  A success returns; a rate-limit error at the last attempt throws
the cap error, otherwise sleeps `2 ^ attempt * 1000 + jitter attempt` and
retries; a non-rate-limit error is rethrown at once.  `fuel` bounds the
loop; runs start with `fuel = maxRetries + 1`, one unit per iteration. -/
def backoffGo {α : Type} (fn : Nat → CallOutcome α) (jitter : Nat → Nat)
    (maxRetries : Nat) : Nat → Nat → BackoffRun α
  | _, 0 => { result := Except.error "Maximum retries exceeded", calls := 0, delays := [] }
  | attempt, fuel + 1 =>
      match fn attempt with
      | CallOutcome.ok v => { result := Except.ok v, calls := 1, delays := [] }
      | CallOutcome.err code msg =>
          if isRateLimitErr code msg then
            if attempt == maxRetries then
              { result := Except.error
                  ("Rate limit exceeded after " ++ toString maxRetries ++ " retries"),
                calls := 1, delays := [] }
            else
              let d := 2 ^ attempt * 1000 + jitter attempt
              let r := backoffGo fn jitter maxRetries (attempt + 1) fuel
              { result := r.result, calls := r.calls + 1, delays := d :: r.delays }
          else { result := Except.error msg, calls := 1, delays := [] }

/-- `FullSyncService.executeWithBackoff` with its default `maxRetries = 5`
(full-sync.service.ts lines 487-515). -/
def executeWithBackoff {α : Type} (fn : Nat → CallOutcome α)
    (jitter : Nat → Nat) : BackoffRun α :=
  backoffGo fn jitter 5 0 6

/-- The `executeWithBackoff` of the older FullSyncService variant shipped in
the repository (its lines 457-467): the loop body awaits `fn` once and
returns the result unconditionally, so no retry ever happens and a thrown
error (rate limit or not) escapes on the first attempt. -/
def executeWithBackoffP8 {α : Type} (fn : Nat → CallOutcome α) : BackoffRun α :=
  match fn 0 with
  | CallOutcome.ok v => { result := Except.ok v, calls := 1, delays := [] }
  | CallOutcome.err _ msg => { result := Except.error msg, calls := 1, delays := [] }

/-- Per-folder outcome inside `processFullSync`: the folder name and either
the count `syncEntireFolder` returned or the message of the error it threw
(after its own page retries were exhausted). -/
structure FolderSyncOutcome where
  name : String
  result : Except String Nat
deriving Repr

/-- Final `sync_operations` row written by `processFullSync` after the
folder loop. -/
structure SyncOpFinal where
  status : JobStatus
  progress : Nat
  status_message : String
  folders_completed : Nat
  messages_synced : Nat
deriving DecidableEq, Repr

/-- The folder loop and completion update of `processFullSync`
(full-sync.service.ts lines 229-310): a folder error is caught, written to
`status_message`, and the loop continues; after the loop the job is set to
`completed`, `progress = 100`, with the completion message — whatever
happened inside the loop. -/
def processFullSyncFolders (folders : List FolderSyncOutcome) : SyncOpFinal :=
  let r := folders.foldl
    (fun (acc : Nat × Nat) f =>
      match f.result with
      | Except.ok n => (acc.1 + 1, acc.2 + n)
      | Except.error _ => acc)
    (0, 0)
  { status := JobStatus.completed, progress := 100,
    status_message := "Full sync completed successfully",
    folders_completed := r.1, messages_synced := r.2 }

/-! ### Token refresh at the start of processFullSync -/

/-- Provider calls `processFullSync` can make, in order of appearance. -/
inductive ProviderCall
  | refreshAccessToken
  | getMailLabels
  | getEmailsPage (folder : String)
deriving DecidableEq, Repr

/-- Connection columns read by the `processFullSync` prologue. -/
structure FullSyncConn where
  token_expires_at : Int
  sync_status : String
deriving DecidableEq, Repr

/-- Provider-call trace of `FullSyncService.processFullSync` in
full-sync.service.ts (lines 159-301): `refreshAccessToken` is called only
when `token_expires_at <= now` (lines 179-194), then `getMailLabels`, then
the per-folder page fetches. -/
def processFullSyncCalls (conn : FullSyncConn) (now : Int)
    (folders : List String) : List ProviderCall :=
  (if conn.token_expires_at ≤ now then [ProviderCall.refreshAccessToken] else [])
    ++ [ProviderCall.getMailLabels]
    ++ folders.map ProviderCall.getEmailsPage

/-- Provider-call trace of the older `processFullSync` variant (its lines
189-257): after failing fast on `sync_status = 'requires_reauth'`, it always
calls `refreshAccessToken` before anything else. -/
def processFullSyncCallsP8 (conn : FullSyncConn) : List ProviderCall :=
  if conn.sync_status == "requires_reauth" then []
  else [ProviderCall.refreshAccessToken]

/-! ### The fullSync pre-clear of syncEmailsOnDemand -/

/-- A `cached_emails` row, reduced to the delete-relevant columns;
`folder_id` is a UUID column referencing `folders.id`. -/
structure CachedEmail where
  user_id : String
  connection_id : String
  provider_email_id : String
  folder_id : String
deriving DecidableEq, Repr

/-- A `folders` row. -/
structure FolderRow where
  id : String
  user_id : String
  connection_id : String
  type : String
deriving DecidableEq, Repr

/-- The fullSync pre-clear in the repository variant of
`syncEmailsOnDemand` (the second SyncService in sync.controller.ts, lines
477-490): `DELETE FROM cached_emails WHERE user_id = .. AND
connection_id = .. AND folder_id = folderType` — the folder TYPE string is
compared against the UUID column. -/
def onDemandPreClear (cache : List CachedEmail)
    (userId connectionId folderType : String) (fullSync : Bool) :
    List CachedEmail :=
  if fullSync then
    cache.filter (fun e =>
      !(e.user_id == userId && e.connection_id == connectionId &&
        e.folder_id == folderType))
  else cache

/-- The module-wired `SyncService.syncEmailsOnDemand` (sync.service.ts lines
306-413) issues no delete at all before refetching: the cache is passed
through unchanged. -/
def onDemandPreClearModule (cache : List CachedEmail)
    (_userId _connectionId _folderType : String) (_fullSync : Bool) :
    List CachedEmail :=
  cache

/-- Specified pre-clear, written from the spec rather than the source: on
fullSync, look up the Folder row for (user, connection, folderType) and
delete the cached rows whose `folder_id` equals that row's UUID id. -/
def onDemandPreClearSpec (cache : List CachedEmail) (folders : List FolderRow)
    (userId connectionId folderType : String) (fullSync : Bool) :
    List CachedEmail :=
  if fullSync then
    match folders.find? (fun f =>
        f.user_id == userId && f.connection_id == connectionId &&
        f.type == folderType) with
    | some f =>
        cache.filter (fun e =>
          !(e.user_id == userId && e.connection_id == connectionId &&
            e.folder_id == f.id))
    | none => cache
  else cache

/-! ### IncrementalSyncService.processHistoryChanges -/

/-- Accumulator of `processHistoryChanges` (incremental-sync.service.ts
lines 644-651): the four JavaScript `Set`s, as insertion-ordered
duplicate-free lists. -/
structure PartState where
  processedMessageIds : List String
  messagesToAdd : List String
  messagesToDelete : List String
  messagesToUpdate : List String
deriving DecidableEq, Repr

/-- Body of the `messagesAdded` loop of one history entry (lines 656-663):
an id not yet processed joins `messagesToAdd` and `processedMessageIds`. -/
def addStep (s : PartState) (m : String) : PartState :=
  if m ∈ s.processedMessageIds then s
  else { s with messagesToAdd := s.messagesToAdd ++ [m],
                processedMessageIds := s.processedMessageIds ++ [m] }

/-- The `messagesAdded` loop over one entry. -/
def addPass (s : PartState) (ms : List String) : PartState :=
  ms.foldl addStep s

/-- Body of the `messagesDeleted` loop (lines 666-673). -/
def delStep (s : PartState) (m : String) : PartState :=
  if m ∈ s.processedMessageIds then s
  else { s with messagesToDelete := s.messagesToDelete ++ [m],
                processedMessageIds := s.processedMessageIds ++ [m] }

/-- The `messagesDeleted` loop over one entry. -/
def delPass (s : PartState) (ms : List String) : PartState :=
  ms.foldl delStep s

/-- Body of the label-changes loop (lines 676-687): the id must be absent
from `processedMessageIds`, `messagesToAdd` and `messagesToDelete`. -/
def updStep (s : PartState) (m : String) : PartState :=
  if m ∈ s.processedMessageIds ∨ m ∈ s.messagesToAdd ∨ m ∈ s.messagesToDelete
  then s
  else { s with messagesToUpdate := s.messagesToUpdate ++ [m],
                processedMessageIds := s.processedMessageIds ++ [m] }

/-- The label-changes loop over one entry. -/
def updPass (s : PartState) (ms : List String) : PartState :=
  ms.foldl updStep s

/-- Processing of one history entry (lines 654-688): additions, then
deletions, then the concatenated label changes. -/
def processEntry (s : PartState) (h : HistoryEntry) : PartState :=
  updPass (delPass (addPass s h.messagesAdded) h.messagesDeleted)
    (h.labelsAdded ++ h.labelsRemoved)

/-- The id-bucketing phase of `processHistoryChanges` (lines 644-688) over
the collected history entries. -/
def processHistoryChanges (entries : List HistoryEntry) : PartState :=
  entries.foldl processEntry
    { processedMessageIds := [], messagesToAdd := [],
      messagesToDelete := [], messagesToUpdate := [] }

/-- Whether a message id occurs anywhere in the collected history. -/
def occursIn (entries : List HistoryEntry) (m : String) : Prop :=
  ∃ e ∈ entries, m ∈ e.messagesAdded ∨ m ∈ e.messagesDeleted ∨
    m ∈ e.labelsAdded ∨ m ∈ e.labelsRemoved

/-- Numeric value of a Gmail history id (an integer rendered in decimal),
for the monotonicity comparison the spec states. -/
def decimalValue (s : String) : Nat :=
  s.data.foldl (fun n c => n * 10 + (c.toNat - 48)) 0

/-! ## Concrete inputs used by witnesses and counterexamples -/

/-- A connection with no incremental cursor. -/
def connNoCursor : IncConn :=
  { latest_history_id := none, token_expires_at := 0,
    access_token := "at", refresh_token := "rt" }

/-- A connection with cursor "100" and a token valid until t = 10. -/
def connWithCursor : IncConn :=
  { latest_history_id := some "100", token_expires_at := 10,
    access_token := "at", refresh_token := "rt" }

/-- An uneventful environment: fresh token available, empty history. -/
def envIdle : IncEnv :=
  { now := 0,
    refresh := Except.ok
      { accessToken := "at2", refreshToken := none, expiryDate := 50 },
    history := Except.ok { changes := [], newHistoryId := none } }

/-- An environment where `history.list` reports no change but a newer
mailbox history id. -/
def envNoChanges : IncEnv :=
  { now := 0,
    refresh := Except.ok
      { accessToken := "at2", refreshToken := none, expiryDate := 50 },
    history := Except.ok { changes := [], newHistoryId := some "200" } }

/-- An environment where the token is expired and the refresh call itself
fails with a message that happens to contain "Invalid historyId". -/
def envRefreshInvalid : IncEnv :=
  { now := 20,
    refresh := Except.error "Invalid historyId marker in refresh failure",
    history := Except.ok { changes := [], newHistoryId := none } }

/-- An environment where `history.list` throws an unrelated error. -/
def envBoom : IncEnv :=
  { now := 0,
    refresh := Except.ok
      { accessToken := "at2", refreshToken := none, expiryDate := 50 },
    history := Except.error "boom" }

/-- An environment with one added message and final history id "200". -/
def envAdvance : IncEnv :=
  { now := 0,
    refresh := Except.ok
      { accessToken := "at2", refreshToken := none, expiryDate := 50 },
    history := Except.ok
      { changes := [{ messagesAdded := ["m1"], messagesDeleted := [],
                      labelsAdded := [], labelsRemoved := [] }],
        newHistoryId := some "200" } }

/-- Result of the successful `envAdvance` run. -/
def advanceResult : IncResult :=
  { success := true, requiresFullSync := false, changesDetected := some true,
    message := none, newHistoryId := some "200" }

/-- Effects of the successful `envAdvance` run. -/
def advanceEffects : IncEffects :=
  { finalHistoryId := some "200", lastSyncedTouched := true }

/-- An abandoned in-progress job: owned by a dead worker, stale. -/
def abandonedJob : SyncOp :=
  { id := 7, connection_id := "c1", sync_type := "incremental",
    status := JobStatus.inProgress, worker_id := some "w-dead",
    updated_stale := true }

/-- A new, unclaimed in-progress job. -/
def unclaimedJob : SyncOp :=
  { id := 8, connection_id := "c2", sync_type := "full",
    status := JobStatus.inProgress, worker_id := none,
    updated_stale := false }

/-- Two workers racing the abandoned-jobs path on `abandonedJob`:
A selects, B selects, A updates and processes, B updates and processes. -/
def reclaimRaceRun : ClaimRace :=
  runClaimRace reclaimStep "wA" "wB" [true, false, true, false]
    { job := abandonedJob, pa := ClaimPhase.start, pb := ClaimPhase.start,
      executedBy := [] }

/-- The same schedule on the new-jobs path over `unclaimedJob`. -/
def newClaimRaceRun : ClaimRace :=
  runClaimRace newClaimStep "wA" "wB" [true, false, true, false]
    { job := unclaimedJob, pa := ClaimPhase.start, pb := ClaimPhase.start,
      executedBy := [] }

/-- A cached inbox message carrying the inbox folder UUID. -/
def cacheInbox : List CachedEmail :=
  [{ user_id := "u1", connection_id := "c1", provider_email_id := "m1",
     folder_id := "6f1d2a3b-0000-0000-0000-000000000001" }]

/-- The folder rows of connection c1: an inbox folder with a UUID id. -/
def foldersU1 : List FolderRow :=
  [{ id := "6f1d2a3b-0000-0000-0000-000000000001", user_id := "u1",
     connection_id := "c1", type := "inbox" }]

/-- A connection whose stored token is still valid at time 0. -/
def connTokenValid : FullSyncConn :=
  { token_expires_at := 100, sync_status := "idle" }

/-- History entries in which "m1" is first deleted, then added. -/
def entriesDeleteThenAdd : List HistoryEntry :=
  [{ messagesAdded := [], messagesDeleted := ["m1"],
     labelsAdded := [], labelsRemoved := [] },
   { messagesAdded := ["m1"], messagesDeleted := [],
     labelsAdded := [], labelsRemoved := [] }]

/-- A provider call that is always answered with HTTP 429. -/
def fnRL : Nat → CallOutcome Nat :=
  fun _ => CallOutcome.err (some 429) "Too many requests"

/-- A provider call that is rate-limited twice, then succeeds. -/
def fnOkAfter2 : Nat → CallOutcome Nat :=
  fun i => if i < 2 then CallOutcome.err (some 429) "Too many requests"
           else CallOutcome.ok 7

/-- Zero jitter. -/
def jitter0 : Nat → Nat := fun _ => 0

/-- Constant half-second jitter. -/
def jitter500 : Nat → Nat := fun _ => 500

/-! ## Claims -/

/-- C9: `GmailService.getEmails`, when it succeeds, returns an array of
parsed messages with a `nextPageToken` property attached and no `messages`
field; consequently `syncFolderEmails` and `syncEmailsOnDemand` in
sync.service.ts, which test `response.messages`, always take the no-emails
branch and return success = true with count = 0 and no cache writes — for
every provider page, including non-empty ones. -/
theorem getEmails_sync_no_cache_writes :
    ∀ (listIds : List String) (tok : Option String)
      (fetch : String → Option ParsedEmail),
      messagesField (getEmails listIds tok fetch) = none
    ∧ syncFolderEmails (getEmails listIds tok fetch) = ((true, 0), [])
    ∧ syncEmailsOnDemand (getEmails listIds tok fetch) =
        ({ success := true, count := 0, nextPageToken := none,
           hasMore := false }, []) := by
  intro listIds tok fetch
  exact ⟨rfl, rfl, rfl⟩

/-- C10: when `performIncrementalSync` returns without throwing, the
incremental branch of `processJob` unconditionally writes status =
completed, progress = 100 and the message "Incremental sync completed
successfully", and enqueues no follow-up full-sync job — also when the
returned result has success = false and requiresFullSync = true. -/
theorem processJob_incremental_always_completed
    (conn : IncConn) (env : IncEnv) (re : IncResult × IncEffects)
    (h : performIncrementalSync conn env = Except.ok re) :
    processJob_incremental (performIncrementalSync conn env) =
      ({ status := JobStatus.completed, progress := some 100,
         status_message := "Incremental sync completed successfully" },
       false) := by
  rw [h]; rfl

/-- Witness for C10: on a connection without a cursor the incremental sync
returns requiresFullSync = true and success = false, and the job is still
marked completed. -/
theorem processJob_incremental_always_completed_witness :
    performIncrementalSync connNoCursor envIdle =
      Except.ok (noHistoryResult,
        { finalHistoryId := none, lastSyncedTouched := false })
    ∧ noHistoryResult.success = false
    ∧ noHistoryResult.requiresFullSync = true
    ∧ processJob_incremental (performIncrementalSync connNoCursor envIdle) =
        ({ status := JobStatus.completed, progress := some 100,
           status_message := "Incremental sync completed successfully" },
         false) :=
  ⟨rfl, rfl, rfl,
   processJob_incremental_always_completed connNoCursor envIdle _ rfl⟩

/-- C8: the fullSync pre-clear of `syncEmailsOnDemand` deletes nothing.
The repository variant with a pre-clear compares the UUID column
`folder_id` against the folder TYPE string, so a cached inbox row (whose
`folder_id` is the inbox folder UUID) survives; the module-wired variant
issues no delete at all.  The specified pre-clear — matching on the folder
UUID looked up for (user, connection, folderType) — removes the row. -/
theorem on_demand_preclear_mismatch :
    onDemandPreClear cacheInbox "u1" "c1" "inbox" true = cacheInbox
    ∧ onDemandPreClearModule cacheInbox "u1" "c1" "inbox" true = cacheInbox
    ∧ onDemandPreClearSpec cacheInbox foldersU1 "u1" "c1" "inbox" true = [] := by
  exact ⟨rfl, rfl, rfl⟩

/-- Counterexample to C1 as stated: the existence check and the insert of
`startFullSync` are separate database statements, so two interleaved
`startFullSync` calls for connection "c1" — both selects first, then both
inserts — reach a queue state with TWO in-progress rows for "c1". -/
theorem double_enqueue_counterexample :
    inProgressCount
      (runTwoEnqueues "c1" [true, false, true, false]
        ([], EnqPhase.start, EnqPhase.start)).1 "c1" = 2 := by
  decide

/-- Counterexample to C2 as stated.  Left: the reclaim update is conditioned
only on `status = 'in_progress'`, so after both workers select the same
stale job, both conditional updates succeed — each worker becomes owner in
turn and both execute the job.  Right: on the new-jobs path the second
update matches zero rows (worker_id is no longer NULL), which PostgREST does
not report as an error, so the second worker still executes the job it never
came to own. -/
theorem double_claim_counterexample :
    ((reclaimRaceRun).executedBy = ["wA", "wB"]
      ∧ (reclaimRaceRun).job.worker_id = some "wB")
    ∧ ((newClaimRaceRun).executedBy = ["wA", "wB"]
      ∧ (newClaimRaceRun).job.worker_id = some "wA") := by
  decide

/-- Counterexample to C3 as stated: with every attempt answered by HTTP 429,
`executeWithBackoff` does raise the rate-limit-exceeded error after five
retries, but that error does NOT fail the job — the per-folder handler of
`processFullSync` swallows it and the job is still written as completed.
The older variant of the function makes one single call and never
retries. -/
theorem rate_limit_swallowed_counterexample :
    executeWithBackoff fnRL jitter0 =
      { result := Except.error "Rate limit exceeded after 5 retries",
        calls := 6, delays := [1000, 2000, 4000, 8000, 16000] }
    ∧ processFullSyncFolders
        [{ name := "Inbox",
           result := Except.error "Rate limit exceeded after 5 retries" }] =
      { status := JobStatus.completed, progress := 100,
        status_message := "Full sync completed successfully",
        folders_completed := 0, messages_synced := 0 }
    ∧ (executeWithBackoffP8 fnRL).calls = 1 :=
  ⟨rfl, rfl, rfl⟩

/-- Counterexample to C4 as stated: the catch of `performIncrementalSync`
matches on the message substring regardless of which call threw.  Here the
cursor is present and `history.list` would succeed, but the token refresh
fails with a message containing "Invalid historyId": the error is not
propagated — the function returns requiresFullSync = true instead, a third
case beyond the two the claim allows. -/
theorem invalid_history_catch_counterexample :
    connWithCursor.latest_history_id ≠ none
    ∧ incBody connWithCursor envRefreshInvalid =
        Except.error "Invalid historyId marker in refresh failure"
    ∧ performIncrementalSync connWithCursor envRefreshInvalid =
        Except.ok (invalidHistoryResult,
          { finalHistoryId := some "100", lastSyncedTouched := false }) :=
  ⟨by decide, rfl, rfl⟩

/-- Counterexample to C5 as stated: a run that completes successfully (no
throw, no requiresFullSync) because `history.list` reported no changes
leaves `latest_history_id` at its old value "100" — not strictly greater. -/
theorem incremental_no_advance_counterexample :
    performIncrementalSync connWithCursor envNoChanges =
      Except.ok (noChangesResult,
        { finalHistoryId := some "100", lastSyncedTouched := true })
    ∧ noChangesResult.success = true
    ∧ ¬ decimalValue "100" < decimalValue "100" :=
  ⟨rfl, rfl, by decide⟩

/-- Counterexample to C6 as stated: "m1" occurs in a `messagesAdded` field,
but because it was seen in an earlier entry's `messagesDeleted` it lands in
the delete set and not in the add set — first occurrence wins, not the
claimed add-over-delete precedence. -/
theorem history_precedence_counterexample :
    (processHistoryChanges entriesDeleteThenAdd).messagesToAdd = []
    ∧ (processHistoryChanges entriesDeleteThenAdd).messagesToDelete = ["m1"] := by
  decide

/-- Counterexample to C7 as stated: in the module-wired
`FullSyncService.processFullSync`, a connection whose stored token is still
valid performs NO `refreshAccessToken` call before the folder work. -/
theorem full_sync_refresh_counterexample :
    ProviderCall.refreshAccessToken ∉
      processFullSyncCalls connTokenValid 0 ["Inbox"] := by
  decide

/-- C7, amended: in the module-wired `processFullSync` the token refresh is
attempted first — but only when the stored `token_expires_at` is not in the
future; with a still-valid token no refresh call happens at all.  The older
repository variant of `processFullSync` does refresh unconditionally (after
its requires_reauth fail-fast). -/
theorem full_sync_token_refresh (conn : FullSyncConn) (now : Int)
    (folders : List String) :
    (conn.token_expires_at ≤ now →
      (processFullSyncCalls conn now folders).head? =
        some ProviderCall.refreshAccessToken)
    ∧ (now < conn.token_expires_at →
      ProviderCall.refreshAccessToken ∉ processFullSyncCalls conn now folders)
    ∧ (conn.sync_status ≠ "requires_reauth" →
      (processFullSyncCallsP8 conn).head? =
        some ProviderCall.refreshAccessToken) := by
  refine ⟨fun h => ?_, fun h => ?_, fun h => ?_⟩
  · simp [processFullSyncCalls, if_pos h]
  · simp only [processFullSyncCalls, if_neg (not_le.mpr h), List.nil_append]
    intro hmem
    rcases List.mem_append.mp hmem with hmem | hmem
    · simp at hmem
    · rcases List.mem_map.mp hmem with ⟨f, _, hf⟩
      exact ProviderCall.noConfusion hf
  · have hb : (conn.sync_status == "requires_reauth") = false :=
      beq_eq_false_iff_ne.mpr h
    simp [processFullSyncCallsP8, hb]

/-- Witness for C7: an expired token triggers the refresh first, a valid one
suppresses it, and the older variant refreshes a healthy connection
unconditionally. -/
theorem full_sync_token_refresh_witness :
    (processFullSyncCalls { token_expires_at := -5, sync_status := "idle" }
        0 ["Inbox"]).head? = some ProviderCall.refreshAccessToken
    ∧ ProviderCall.refreshAccessToken ∉
        processFullSyncCalls connTokenValid 0 ["Inbox"]
    ∧ (processFullSyncCallsP8 connTokenValid).head? =
        some ProviderCall.refreshAccessToken :=
  ⟨(full_sync_token_refresh _ 0 ["Inbox"]).1 (by decide),
   (full_sync_token_refresh connTokenValid 0 ["Inbox"]).2.1 (by decide),
   (full_sync_token_refresh connTokenValid 0 ["Inbox"]).2.2 (by decide)⟩

/-- C2, amended: the new-jobs conditional update (`WHERE worker_id IS NULL`)
never reassigns a job that already has an owner, and assigns the claimer
when the job is unowned; but the abandoned-jobs conditional update is scoped
only by `status = 'in_progress'` — it hands the job to ANY reclaiming
worker regardless of the current owner, so a second reclaimer takes the job
over again right after the first one claimed it.  Moreover neither path
checks the number of rows the update affected before calling `processJob`,
so losing an update race does not stop a worker from executing the job (see
the counterexample run). -/
theorem claim_update_scoping (j : SyncOp) (w w2 : String) :
    (∀ wPrev, j.worker_id = some wPrev → claimNewUpdate w j = j)
    ∧ (j.worker_id = none → (claimNewUpdate w j).worker_id = some w)
    ∧ (j.status = JobStatus.inProgress →
        (claimAbandonedUpdate w j).worker_id = some w
        ∧ (claimAbandonedUpdate w2 (claimAbandonedUpdate w j)).worker_id =
            some w2) := by
  refine ⟨fun wPrev h => ?_, fun h => ?_, fun h => ?_⟩
  · simp [claimNewUpdate, h]
  · simp [claimNewUpdate, h]
  · constructor
    · simp [claimAbandonedUpdate, h]
    · simp [claimAbandonedUpdate, h]

/-- Witness for C2: the conditional updates evaluated on the concrete
abandoned and unclaimed jobs. -/
theorem claim_update_scoping_witness :
    claimNewUpdate "wA" abandonedJob = abandonedJob
    ∧ (claimNewUpdate "wA" unclaimedJob).worker_id = some "wA"
    ∧ (claimAbandonedUpdate "wA" abandonedJob).worker_id = some "wA"
    ∧ (claimAbandonedUpdate "wB" (claimAbandonedUpdate "wA" abandonedJob)).worker_id =
        some "wB" :=
  ⟨(claim_update_scoping abandonedJob "wA" "wB").1 "w-dead" rfl,
   (claim_update_scoping unclaimedJob "wA" "wB").2.1 rfl,
   ((claim_update_scoping abandonedJob "wA" "wB").2.2 rfl).1,
   ((claim_update_scoping abandonedJob "wA" "wB").2.2 rfl).2⟩

/-- Helper: a table all of whose rows fail the in-progress predicate has
count zero. -/
theorem inProgressCount_eq_zero_of_none (tbl : List SyncOp) (c : String)
    (h : ∀ j ∈ tbl, inProgressFor c j = false) : inProgressCount tbl c = 0 := by
  have : tbl.filter (inProgressFor c) = [] := by
    rw [List.filter_eq_nil_iff]
    intro a ha
    simp [h a ha]
  simp [inProgressCount, this]

/-- Helper: appending one row changes the count by its predicate value. -/
theorem inProgressCount_append_single (tbl : List SyncOp) (x : SyncOp)
    (c : String) :
    inProgressCount (tbl ++ [x]) c =
      inProgressCount tbl c + (if inProgressFor c x then 1 else 0) := by
  by_cases hx : inProgressFor c x
  · simp [inProgressCount, List.filter_append, hx]
  · simp [inProgressCount, List.filter_append, hx]

/-- Helper: the scheduled-enqueue procedure, run on its own, keeps at most
one in-progress row per connection. -/
theorem schedule_incremental_syncs_le_one (c : String) :
    ∀ (due : List String) (tbl : List SyncOp), inProgressCount tbl c ≤ 1 →
      inProgressCount (schedule_incremental_syncs tbl due) c ≤ 1 := by
  intro due
  induction due with
  | nil => intro tbl h; simpa [schedule_incremental_syncs] using h
  | cons d rest ih =>
      intro tbl h
      have hcons : schedule_incremental_syncs tbl (d :: rest) =
          schedule_incremental_syncs
            (if tbl.any (inProgressFor d) then tbl else tbl ++ [newIncOp tbl d])
            rest := by
        simp [schedule_incremental_syncs]
      rw [hcons]
      apply ih
      by_cases hd : tbl.any (inProgressFor d) = true
      · simpa [hd] using h
      · have hall : ∀ j ∈ tbl, inProgressFor d j = false := by
          intro j hj
          cases hB : inProgressFor d j with
          | false => rfl
          | true => exact absurd (List.any_eq_true.mpr ⟨j, hj, hB⟩) hd
        rw [if_neg hd, inProgressCount_append_single]
        by_cases hcd : inProgressFor c (newIncOp tbl d) = true
        · have hdc : d = c := by
            simpa [inProgressFor, newIncOp] using hcd
          subst hdc
          have h0 : inProgressCount tbl d = 0 :=
            inProgressCount_eq_zero_of_none tbl d hall
          simp [h0, hcd]
        · simpa [hcd] using h

/-- C1, amended: each enqueue path executed on its own (the check-then-insert
of `startFullSync` as one uninterrupted operation, and the
`schedule_incremental_syncs` transaction) preserves the at-most-one
in-progress-row-per-connection invariant, and `startFullSync` answers
success = false with the existing row's id when a row exists.  The claim's
"every reachable state" fails, however: the check and the insert of
`startFullSync` are separate statements, so two interleaved calls insert two
in-progress rows for the same connection (see the counterexample). -/
theorem enqueue_serially_preserves_single_in_progress
    (tbl : List SyncOp) (c : String) (due : List String)
    (h : inProgressCount tbl c ≤ 1) :
    inProgressCount (startFullSync tbl c).1 c ≤ 1
    ∧ inProgressCount (schedule_incremental_syncs tbl due) c ≤ 1
    ∧ (∀ j, tbl.find? (inProgressFor c) = some j →
        startFullSync tbl c =
          (tbl, { success := false,
                  message := "A sync operation is already in progress for this connection",
                  syncId := some j.id })) := by
  refine ⟨?_, schedule_incremental_syncs_le_one c due tbl h, ?_⟩
  · cases hf : tbl.find? (inProgressFor c) with
    | some j => simpa [startFullSync, hf] using h
    | none =>
        have hall : ∀ j ∈ tbl, inProgressFor c j = false := by
          intro j hj
          have := List.find?_eq_none.mp hf j hj
          simpa using this
        have h0 : inProgressCount tbl c = 0 :=
          inProgressCount_eq_zero_of_none tbl c hall
        have hnew : inProgressFor c (newFullOp tbl c) = true := by
          simp [inProgressFor, newFullOp]
        simp [startFullSync, hf, inProgressCount_append_single, h0, hnew]
  · intro j hj
    simp [startFullSync, hj]

/-- Witness for C1: the amended statement evaluated on a queue that already
holds the in-progress job of connection "c1". -/
theorem enqueue_serially_preserves_single_in_progress_witness :
    inProgressCount (startFullSync [abandonedJob] "c1").1 "c1" ≤ 1
    ∧ inProgressCount
        (schedule_incremental_syncs [abandonedJob] ["c1", "c3"]) "c1" ≤ 1
    ∧ startFullSync [abandonedJob] "c1" =
        ([abandonedJob],
         { success := false,
           message := "A sync operation is already in progress for this connection",
           syncId := some 7 }) :=
  ⟨(enqueue_serially_preserves_single_in_progress [abandonedJob] "c1"
      ["c1", "c3"] (by decide)).1,
   (enqueue_serially_preserves_single_in_progress [abandonedJob] "c1"
      ["c1", "c3"] (by decide)).2.1,
   (enqueue_serially_preserves_single_in_progress [abandonedJob] "c1"
      ["c1", "c3"] (by decide)).2.2 abandonedJob (by decide)⟩

/-- Helper: a successful `incAfterToken` never reports requiresFullSync. -/
theorem incAfterToken_ok_not_rfs (historyId : String) (env : IncEnv) :
    ∀ r eff, incAfterToken historyId env = Except.ok (r, eff) →
      r.requiresFullSync = false := by
  intro r eff h
  cases hH : env.history with
  | error e => simp [incAfterToken, hH] at h
  | ok hc =>
      simp only [incAfterToken, hH] at h
      by_cases hz : (hc.changes.length == 0) = true
      · rw [if_pos hz] at h
        obtain ⟨hr, _⟩ : noChangesResult = r ∧ _ = eff := by simpa using h
        rw [← hr]; rfl
      · rw [if_neg hz] at h
        obtain ⟨hr, _⟩ := by simpa using h
        rw [← hr]

/-- Helper: with a present cursor, a successful `incBody` never reports
requiresFullSync. -/
theorem incBody_ok_not_rfs (conn : IncConn) (env : IncEnv) (hid : String)
    (hsome : conn.latest_history_id = some hid) :
    ∀ r eff, incBody conn env = Except.ok (r, eff) →
      r.requiresFullSync = false := by
  intro r eff h
  simp only [incBody, hsome] at h
  by_cases hexp : conn.token_expires_at ≤ env.now
  · rw [if_pos hexp] at h
    cases hR : env.refresh with
    | error e => rw [hR] at h; simp at h
    | ok t => rw [hR] at h; exact incAfterToken_ok_not_rfs hid env r eff h
  · rw [if_neg hexp] at h
    exact incAfterToken_ok_not_rfs hid env r eff h

/-- Helper: with no cursor, `incBody` returns the requires-full-sync result
at once. -/
theorem incBody_none (conn : IncConn) (env : IncEnv)
    (h : conn.latest_history_id = none) :
    incBody conn env =
      Except.ok (noHistoryResult,
        { finalHistoryId := none, lastSyncedTouched := false }) := by
  simp [incBody, h]

/-- C4, amended: `performIncrementalSync` returns requiresFullSync = true
(with success = false) without throwing exactly when the connection has no
`latest_history_id`, or when the try-block threw ANY error whose message
contains "Invalid historyId" — the catch tests the message substring only,
so it is not limited to the `history.list` call (see the counterexample
where the token refresh throws such a message).  Every error whose message
lacks the substring is propagated unchanged. -/
theorem performIncrementalSync_requiresFullSync_iff
    (conn : IncConn) (env : IncEnv) :
    (∀ r eff, performIncrementalSync conn env = Except.ok (r, eff) →
       (r.requiresFullSync = true ↔
         (conn.latest_history_id = none ∨
          ∃ e, incBody conn env = Except.error e ∧
            strContainsSub e "Invalid historyId" = true)))
    ∧ (∀ e, performIncrementalSync conn env = Except.error e ↔
        (incBody conn env = Except.error e ∧
         strContainsSub e "Invalid historyId" = false)) := by
  cases hB : incBody conn env with
  | ok pr =>
      obtain ⟨r0, eff0⟩ := pr
      have hperf : performIncrementalSync conn env = Except.ok (r0, eff0) := by
        simp [performIncrementalSync, hB]
      constructor
      · intro r eff h
        rw [hperf] at h
        obtain ⟨hr, heff⟩ : r0 = r ∧ eff0 = eff := by simpa using h
        subst hr; subst heff
        constructor
        · intro hrfs
          cases hL : conn.latest_history_id with
          | none => exact Or.inl rfl
          | some hid =>
              have := incBody_ok_not_rfs conn env hid hL r0 eff0 hB
              rw [this] at hrfs
              exact absurd hrfs (by simp)
        · intro hdisj
          rcases hdisj with hnone | ⟨e, he, _⟩
          · have hform := incBody_none conn env hnone
            rw [hB] at hform
            obtain ⟨hr0, _⟩ : r0 = noHistoryResult ∧ _ := by simpa using hform
            rw [hr0]; rfl
          · exact absurd he (by simp)
      · intro e
        constructor
        · intro h; rw [hperf] at h; simp at h
        · rintro ⟨he, _⟩; simp at he
  | error e0 =>
      by_cases hS : strContainsSub e0 "Invalid historyId" = true
      · have hperf : performIncrementalSync conn env =
            Except.ok (invalidHistoryResult,
              { finalHistoryId := conn.latest_history_id,
                lastSyncedTouched := false }) := by
          simp [performIncrementalSync, hB, if_pos hS]
        constructor
        · intro r eff h
          rw [hperf] at h
          obtain ⟨hr, _⟩ : invalidHistoryResult = r ∧ _ = eff := by simpa using h
          constructor
          · intro _; exact Or.inr ⟨e0, rfl, hS⟩
          · intro _; rw [← hr]; rfl
        · intro e
          constructor
          · intro h; rw [hperf] at h; simp at h
          · rintro ⟨he, hf⟩
            obtain he0 : e0 = e := by simpa using he
            rw [← he0] at hf
            rw [hS] at hf
            exact absurd hf (by simp)
      · have hS' : strContainsSub e0 "Invalid historyId" = false := by
          cases hx : strContainsSub e0 "Invalid historyId"
          · rfl
          · exact absurd hx hS
        have hperf : performIncrementalSync conn env = Except.error e0 := by
          simp [performIncrementalSync, hB, if_neg hS]
        constructor
        · intro r eff h; rw [hperf] at h; simp at h
        · intro e
          constructor
          · intro h
            rw [hperf] at h
            obtain he0 : e0 = e := by simpa using h
            rw [← he0]
            exact ⟨rfl, hS'⟩
          · rintro ⟨he, _⟩
            obtain he0 : e0 = e := by simpa using he
            rw [← he0]
            exact hperf

/-- Witness for C4: a history.list failure without the marker substring is
propagated, and the missing-cursor case reports requiresFullSync. -/
theorem performIncrementalSync_requiresFullSync_iff_witness :
    performIncrementalSync connWithCursor envBoom = Except.error "boom"
    ∧ noHistoryResult.requiresFullSync = true :=
  ⟨((performIncrementalSync_requiresFullSync_iff connWithCursor envBoom).2
      "boom").mpr ⟨rfl, by decide⟩,
   ((performIncrementalSync_requiresFullSync_iff connNoCursor envIdle).1
      noHistoryResult { finalHistoryId := none, lastSyncedTouched := false }
      rfl).mpr (Or.inl rfl)⟩

/-- C5, amended: a successful `performIncrementalSync` (no throw, no
requiresFullSync) sets the connection's `latest_history_id` to the final
historyId reported by the provider when changes were detected and that id is
non-empty, and leaves the cursor UNCHANGED otherwise (no changes detected,
or a null/empty reported id) — it strictly advances numerically only when
the provider reported a numerically larger id, not on every successful
completion (see the counterexample). -/
theorem incremental_history_advance (conn : IncConn) (env : IncEnv)
    (r : IncResult) (eff : IncEffects) (h0 : String)
    (hrun : performIncrementalSync conn env = Except.ok (r, eff))
    (hs : r.success = true) (hh : conn.latest_history_id = some h0) :
    (eff.finalHistoryId = some h0 ∨
      ∃ hc n, env.history = Except.ok hc ∧ hc.newHistoryId = some n ∧
        n ≠ "" ∧ eff.finalHistoryId = some n)
    ∧ (∀ hc n, env.history = Except.ok hc → hc.changes ≠ [] →
        hc.newHistoryId = some n → n ≠ "" →
        eff.finalHistoryId = some n
        ∧ (decimalValue h0 < decimalValue n →
            ∃ f, eff.finalHistoryId = some f ∧
              decimalValue h0 < decimalValue f)) := by
  have hAT : incAfterToken h0 env = Except.ok (r, eff) := by
    cases hB : incBody conn env with
    | ok pr =>
        have hperf : performIncrementalSync conn env = Except.ok pr := by
          simp [performIncrementalSync, hB]
        rw [hperf] at hrun
        obtain hpr : pr = (r, eff) := by simpa using hrun
        rw [hpr] at hB
        simp only [incBody, hh] at hB
        by_cases hexp : conn.token_expires_at ≤ env.now
        · rw [if_pos hexp] at hB
          cases hR : env.refresh with
          | error e => rw [hR] at hB; simp at hB
          | ok t => rwa [hR] at hB
        · rwa [if_neg hexp] at hB
    | error e0 =>
        by_cases hS : strContainsSub e0 "Invalid historyId" = true
        · have hperf : performIncrementalSync conn env =
              Except.ok (invalidHistoryResult,
                { finalHistoryId := conn.latest_history_id,
                  lastSyncedTouched := false }) := by
            simp [performIncrementalSync, hB, if_pos hS]
          rw [hperf] at hrun
          obtain ⟨hr, _⟩ : invalidHistoryResult = r ∧ _ = eff := by
            simpa using hrun
          rw [← hr] at hs
          exact absurd hs (by simp [invalidHistoryResult])
        · have hperf : performIncrementalSync conn env = Except.error e0 := by
            simp [performIncrementalSync, hB, if_neg hS]
          rw [hperf] at hrun
          simp at hrun
  cases hH : env.history with
  | error e => rw [incAfterToken, hH] at hAT; simp at hAT
  | ok hc =>
      simp only [incAfterToken, hH] at hAT
      by_cases hz : (hc.changes.length == 0) = true
      · rw [if_pos hz] at hAT
        obtain ⟨_, heff⟩ : noChangesResult = r ∧
            ({ finalHistoryId := some h0, lastSyncedTouched := true }
              : IncEffects) = eff := by simpa using hAT
        refine ⟨Or.inl (by rw [← heff]), ?_⟩
        intro hc' n hH' hne _ _
        obtain hcc : hc = hc' := by simpa using hH'
        rw [← hcc] at hne
        have hlen : hc.changes.length = 0 := by simpa using hz
        exact absurd (List.length_eq_zero.mp hlen) hne
      · rw [if_neg hz] at hAT
        obtain ⟨_, heff⟩ :
            ({ success := true, requiresFullSync := false,
               changesDetected := some true, message := none,
               newHistoryId := hc.newHistoryId } : IncResult) = r ∧
            ({ finalHistoryId := some (jsOrString hc.newHistoryId h0),
               lastSyncedTouched := true } : IncEffects) = eff := by
          simpa using hAT
        have heq : eff.finalHistoryId = some (jsOrString hc.newHistoryId h0) := by
          rw [← heff]
        constructor
        · cases hn : hc.newHistoryId with
          | none => exact Or.inl (by rw [heq, hn]; rfl)
          | some n =>
              by_cases hne : n = ""
              · refine Or.inl ?_
                rw [heq, hn, hne]
                simp [jsOrString]
              · refine Or.inr ⟨hc, n, rfl, hn, hne, ?_⟩
                rw [heq, hn]
                simp [jsOrString, hne]
        · intro hc' n hH' _ hn' hne'
          obtain hcc : hc = hc' := by simpa using hH'
          rw [← hcc] at hn'
          have hfin : eff.finalHistoryId = some n := by
            rw [heq, hn']
            simp [jsOrString, hne']
          exact ⟨hfin, fun hlt => ⟨n, hfin, hlt⟩⟩

/-- Witness for C5: on a run with one added message and provider-reported
final id "200", the cursor moves from "100" to "200" and the numeric value
strictly increases. -/
theorem incremental_history_advance_witness :
    performIncrementalSync connWithCursor envAdvance =
      Except.ok (advanceResult, advanceEffects)
    ∧ advanceEffects.finalHistoryId = some "200"
    ∧ decimalValue "100" < decimalValue "200" :=
  ⟨rfl,
   ((incremental_history_advance connWithCursor envAdvance advanceResult
        advanceEffects "100" rfl rfl rfl).2
      { changes := [{ messagesAdded := ["m1"], messagesDeleted := [],
                      labelsAdded := [], labelsRemoved := [] }],
        newHistoryId := some "200" }
      "200" rfl (by decide) rfl (by decide)).1,
   by decide⟩

/-- Helper: a success at the current attempt stops the loop at once. -/
theorem backoffGo_stops_ok {α : Type} (fn : Nat → CallOutcome α)
    (jitter : Nat → Nat) (maxRetries a fuel : Nat) (v : α)
    (h : fn a = CallOutcome.ok v) :
    backoffGo fn jitter maxRetries a (fuel + 1) =
      { result := Except.ok v, calls := 1, delays := [] } := by
  simp [backoffGo, h]

/-- Helper: a non-rate-limit error is rethrown at once. -/
theorem backoffGo_propagates {α : Type} (fn : Nat → CallOutcome α)
    (jitter : Nat → Nat) (maxRetries a fuel : Nat) (c : Option Nat)
    (m : String) (h : fn a = CallOutcome.err c m)
    (hrl : isRateLimitErr c m = false) :
    backoffGo fn jitter maxRetries a (fuel + 1) =
      { result := Except.error m, calls := 1, delays := [] } := by
  simp [backoffGo, h, hrl]

/-- Helper: a rate-limit error at the last attempt raises the cap error. -/
theorem backoffGo_cap {α : Type} (fn : Nat → CallOutcome α)
    (jitter : Nat → Nat) (maxRetries fuel : Nat) (c : Option Nat) (m : String)
    (h : fn maxRetries = CallOutcome.err c m) (hrl : isRateLimitErr c m = true) :
    backoffGo fn jitter maxRetries maxRetries (fuel + 1) =
      { result := Except.error
          ("Rate limit exceeded after " ++ toString maxRetries ++ " retries"),
        calls := 1, delays := [] } := by
  simp [backoffGo, h, hrl]

/-- Helper: a rate-limit error before the last attempt sleeps
`2 ^ attempt * 1000 + jitter attempt` and retries. -/
theorem backoffGo_retries {α : Type} (fn : Nat → CallOutcome α)
    (jitter : Nat → Nat) (maxRetries a fuel : Nat) (c : Option Nat)
    (m : String) (h : fn a = CallOutcome.err c m)
    (hrl : isRateLimitErr c m = true) (hlt : a ≠ maxRetries) :
    backoffGo fn jitter maxRetries a (fuel + 1) =
      { result := (backoffGo fn jitter maxRetries (a + 1) fuel).result,
        calls := (backoffGo fn jitter maxRetries (a + 1) fuel).calls + 1,
        delays := (2 ^ a * 1000 + jitter a) ::
          (backoffGo fn jitter maxRetries (a + 1) fuel).delays } := by
  simp [backoffGo, h, hrl, hlt]

/-- Helper: a run whose first `k` attempts are all rate-limited reaches
attempt `a + k`, accumulating one back-off delay per retried attempt. -/
theorem backoffGo_rl_prefix {α : Type} (fn : Nat → CallOutcome α)
    (jitter : Nat → Nat) :
    ∀ (k a : Nat), a + k ≤ 5 →
      (∀ i, i < k → rlOutcome (fn (a + i)) = true) →
      backoffGo fn jitter 5 a (6 - a) =
        { result := (backoffGo fn jitter 5 (a + k) (6 - (a + k))).result,
          calls := (backoffGo fn jitter 5 (a + k) (6 - (a + k))).calls + k,
          delays := ((List.range k).map
              (fun i => 2 ^ (a + i) * 1000 + jitter (a + i))) ++
            (backoffGo fn jitter 5 (a + k) (6 - (a + k))).delays } := by
  intro k
  induction k with
  | zero => intro a _ _; simp
  | succ k ih =>
      intro a hle hrl
      have h0 : rlOutcome (fn a) = true := by
        have := hrl 0 (Nat.succ_pos k)
        simpa using this
      obtain ⟨c, m, hfa, hrlm⟩ : ∃ c m, fn a = CallOutcome.err c m ∧
          isRateLimitErr c m = true := by
        cases hfa : fn a with
        | ok v => rw [hfa] at h0; simp [rlOutcome] at h0
        | err c m => rw [hfa] at h0; exact ⟨c, m, rfl, h0⟩
      have hfuel : 6 - a = (6 - (a + 1)) + 1 := by omega
      rw [hfuel,
        backoffGo_retries fn jitter 5 a (6 - (a + 1)) c m hfa hrlm (by omega)]
      rw [ih (a + 1) (by omega) (fun i hi => by
        have := hrl (i + 1) (by omega)
        rwa [show a + (i + 1) = a + 1 + i by omega] at this)]
      have hidx : a + 1 + k = a + (k + 1) := by omega
      rw [hidx]
      have hdel : (List.range (k + 1)).map
            (fun i => 2 ^ (a + i) * 1000 + jitter (a + i)) =
          (2 ^ a * 1000 + jitter a) ::
            (List.range k).map
              (fun i => 2 ^ (a + 1 + i) * 1000 + jitter (a + 1 + i)) := by
        rw [List.range_succ_eq_map, List.map_cons, List.map_map]
        refine congrArg₂ List.cons (by simp) ?_
        apply List.map_congr_left
        intro i _
        have : a + (i + 1) = a + 1 + i := by omega
        simp [Function.comp, Nat.succ_eq_add_one, this]
      rw [hdel]
      rfl

/-- C3, amended: in the module-wired `executeWithBackoff`, a rate-limited
attempt (code 429 or a message containing "quota"/"rate"/"limit") is retried
after sleeping `2 ^ attempt * 1000 ms + jitter` for up to five retries; the
first non-rate-limit outcome (value or error) ends the loop at once with no
further delay; after six rate-limited attempts the error "Rate limit
exceeded after 5 retries" is raised.  That error does NOT fail the job: the
per-folder handler of `processFullSync` swallows every folder error and the
job is written completed.  The older repository variant of
`executeWithBackoff` calls the wrapped function exactly once and never
sleeps. -/
theorem executeWithBackoff_policy {α : Type} (fn : Nat → CallOutcome α)
    (jitter : Nat → Nat) :
    (∀ k v, k ≤ 5 → (∀ i, i < k → rlOutcome (fn i) = true) →
       fn k = CallOutcome.ok v →
       executeWithBackoff fn jitter =
         { result := Except.ok v, calls := k + 1,
           delays := (List.range k).map
             (fun i => 2 ^ i * 1000 + jitter i) })
    ∧ (∀ k c m, k ≤ 5 → (∀ i, i < k → rlOutcome (fn i) = true) →
       fn k = CallOutcome.err c m → isRateLimitErr c m = false →
       executeWithBackoff fn jitter =
         { result := Except.error m, calls := k + 1,
           delays := (List.range k).map
             (fun i => 2 ^ i * 1000 + jitter i) })
    ∧ ((∀ i, i ≤ 5 → rlOutcome (fn i) = true) →
       executeWithBackoff fn jitter =
         { result := Except.error "Rate limit exceeded after 5 retries",
           calls := 6,
           delays := (List.range 5).map
             (fun i => 2 ^ i * 1000 + jitter i) })
    ∧ (∀ folders, (processFullSyncFolders folders).status = JobStatus.completed)
    ∧ (∀ g : Nat → CallOutcome α,
        (executeWithBackoffP8 g).calls = 1 ∧ (executeWithBackoffP8 g).delays = []) := by
  have hpre : ∀ k, k ≤ 5 → (∀ i, i < k → rlOutcome (fn i) = true) →
      executeWithBackoff fn jitter =
        { result := (backoffGo fn jitter 5 k (6 - k)).result,
          calls := (backoffGo fn jitter 5 k (6 - k)).calls + k,
          delays := ((List.range k).map
              (fun i => 2 ^ i * 1000 + jitter i)) ++
            (backoffGo fn jitter 5 k (6 - k)).delays } := by
    intro k hk hrl
    have := backoffGo_rl_prefix fn jitter k 0 (by omega)
      (fun i hi => by simpa using hrl i hi)
    simpa [executeWithBackoff] using this
  refine ⟨?_, ?_, ?_, ?_, ?_⟩
  · intro k v hk hrl hok
    rw [hpre k hk hrl]
    have hfuel : 6 - k = (5 - k) + 1 := by omega
    rw [hfuel, backoffGo_stops_ok fn jitter 5 k (5 - k) v hok]
    simp [Nat.add_comm]
  · intro k c m hk hrl herr hnrl
    rw [hpre k hk hrl]
    have hfuel : 6 - k = (5 - k) + 1 := by omega
    rw [hfuel, backoffGo_propagates fn jitter 5 k (5 - k) c m herr hnrl]
    simp [Nat.add_comm]
  · intro hrl
    have h5 : rlOutcome (fn 5) = true := hrl 5 (by omega)
    obtain ⟨c, m, hfa, hrlm⟩ : ∃ c m, fn 5 = CallOutcome.err c m ∧
        isRateLimitErr c m = true := by
      cases hfa : fn 5 with
      | ok v => rw [hfa] at h5; simp [rlOutcome] at h5
      | err c m => rw [hfa] at h5; exact ⟨c, m, rfl, h5⟩
    rw [hpre 5 (by omega) (fun i hi => hrl i (by omega))]
    have hfuel : (6 : Nat) - 5 = 0 + 1 := by omega
    rw [hfuel, backoffGo_cap fn jitter 5 0 c m hfa hrlm]
    simp
    rfl
  · intro folders; rfl
  · intro g
    cases hg : g 0 with
    | ok v => simp [executeWithBackoffP8, hg]
    | err c m => simp [executeWithBackoffP8, hg]

/-- Witness for C3: two 429 responses then a success give three calls and
the two back-off delays; the all-429 stream raises the cap error after six
calls while the job containing that folder still completes; the older
variant performs a single call. -/
theorem executeWithBackoff_policy_witness :
    executeWithBackoff fnOkAfter2 jitter500 =
      { result := Except.ok 7, calls := 3, delays := [1500, 2500] }
    ∧ executeWithBackoff fnRL jitter0 =
      { result := Except.error "Rate limit exceeded after 5 retries",
        calls := 6, delays := [1000, 2000, 4000, 8000, 16000] }
    ∧ (processFullSyncFolders
        [{ name := "Inbox",
           result := Except.error "Rate limit exceeded after 5 retries" }]).status =
      JobStatus.completed
    ∧ (executeWithBackoffP8 fnRL).calls = 1 := by
  refine ⟨?_, ?_, ?_, ?_⟩
  · rw [(executeWithBackoff_policy fnOkAfter2 jitter500).1 2 7 (by decide)
      (by decide) rfl]
    rfl
  · rw [(executeWithBackoff_policy fnRL jitter0).2.2.1 (by decide)]
    rfl
  · exact (executeWithBackoff_policy fnRL jitter0).2.2.2.1 _
  · exact ((executeWithBackoff_policy fnRL jitter0).2.2.2.2 fnRL).1

/-- Invariant of the bucketing state of `processHistoryChanges`: every
bucket is contained in `processedMessageIds`, the buckets cover it, and they
are pairwise disjoint. -/
structure PartOk (s : PartState) : Prop where
  add_sub : ∀ m ∈ s.messagesToAdd, m ∈ s.processedMessageIds
  del_sub : ∀ m ∈ s.messagesToDelete, m ∈ s.processedMessageIds
  upd_sub : ∀ m ∈ s.messagesToUpdate, m ∈ s.processedMessageIds
  cover : ∀ m ∈ s.processedMessageIds,
    m ∈ s.messagesToAdd ∨ m ∈ s.messagesToDelete ∨ m ∈ s.messagesToUpdate
  add_del : ∀ m ∈ s.messagesToAdd, m ∉ s.messagesToDelete
  add_upd : ∀ m ∈ s.messagesToAdd, m ∉ s.messagesToUpdate
  del_upd : ∀ m ∈ s.messagesToDelete, m ∉ s.messagesToUpdate

/-- Helper: one `addStep` preserves the invariant. -/
theorem addStep_ok {s : PartState} (h : PartOk s) (m0 : String) :
    PartOk (addStep s m0) := by
  unfold addStep
  by_cases hm : m0 ∈ s.processedMessageIds
  · rw [if_pos hm]; exact h
  · rw [if_neg hm]
    constructor
    · intro x hx
      rcases List.mem_append.mp hx with hx | hx
      · exact List.mem_append_left _ (h.add_sub x hx)
      · exact List.mem_append_right _ hx
    · intro x hx
      exact List.mem_append_left _ (h.del_sub x hx)
    · intro x hx
      exact List.mem_append_left _ (h.upd_sub x hx)
    · intro x hx
      rcases List.mem_append.mp hx with hx | hx
      · rcases h.cover x hx with hc | hc | hc
        · exact Or.inl (List.mem_append_left _ hc)
        · exact Or.inr (Or.inl hc)
        · exact Or.inr (Or.inr hc)
      · exact Or.inl (List.mem_append_right _ hx)
    · intro x hx
      rcases List.mem_append.mp hx with hx | hx
      · exact h.add_del x hx
      · rw [List.mem_singleton.mp hx]
        intro hd
        exact hm (h.del_sub m0 hd)
    · intro x hx
      rcases List.mem_append.mp hx with hx | hx
      · exact h.add_upd x hx
      · rw [List.mem_singleton.mp hx]
        intro hu
        exact hm (h.upd_sub m0 hu)
    · intro x hx
      exact h.del_upd x hx

/-- Helper: one `delStep` preserves the invariant. -/
theorem delStep_ok {s : PartState} (h : PartOk s) (m0 : String) :
    PartOk (delStep s m0) := by
  unfold delStep
  by_cases hm : m0 ∈ s.processedMessageIds
  · rw [if_pos hm]; exact h
  · rw [if_neg hm]
    constructor
    · intro x hx
      exact List.mem_append_left _ (h.add_sub x hx)
    · intro x hx
      rcases List.mem_append.mp hx with hx | hx
      · exact List.mem_append_left _ (h.del_sub x hx)
      · exact List.mem_append_right _ hx
    · intro x hx
      exact List.mem_append_left _ (h.upd_sub x hx)
    · intro x hx
      rcases List.mem_append.mp hx with hx | hx
      · rcases h.cover x hx with hc | hc | hc
        · exact Or.inl hc
        · exact Or.inr (Or.inl (List.mem_append_left _ hc))
        · exact Or.inr (Or.inr hc)
      · exact Or.inr (Or.inl (List.mem_append_right _ hx))
    · intro x hx hd
      rcases List.mem_append.mp hd with hd | hd
      · exact h.add_del x hx hd
      · rw [List.mem_singleton.mp hd] at hx
        exact hm (h.add_sub m0 hx)
    · intro x hx
      exact h.add_upd x hx
    · intro x hx
      rcases List.mem_append.mp hx with hx | hx
      · exact h.del_upd x hx
      · rw [List.mem_singleton.mp hx]
        intro hu
        exact hm (h.upd_sub m0 hu)

/-- Helper: one `updStep` preserves the invariant. -/
theorem updStep_ok {s : PartState} (h : PartOk s) (m0 : String) :
    PartOk (updStep s m0) := by
  unfold updStep
  by_cases hg : m0 ∈ s.processedMessageIds ∨ m0 ∈ s.messagesToAdd ∨
      m0 ∈ s.messagesToDelete
  · rw [if_pos hg]; exact h
  · rw [if_neg hg]
    push_neg at hg
    obtain ⟨hgp, hga, hgd⟩ := hg
    constructor
    · intro x hx
      exact List.mem_append_left _ (h.add_sub x hx)
    · intro x hx
      exact List.mem_append_left _ (h.del_sub x hx)
    · intro x hx
      rcases List.mem_append.mp hx with hx | hx
      · exact List.mem_append_left _ (h.upd_sub x hx)
      · exact List.mem_append_right _ hx
    · intro x hx
      rcases List.mem_append.mp hx with hx | hx
      · rcases h.cover x hx with hc | hc | hc
        · exact Or.inl hc
        · exact Or.inr (Or.inl hc)
        · exact Or.inr (Or.inr (List.mem_append_left _ hc))
      · exact Or.inr (Or.inr (List.mem_append_right _ hx))
    · intro x hx
      exact h.add_del x hx
    · intro x hx hu
      rcases List.mem_append.mp hu with hu | hu
      · exact h.add_upd x hx hu
      · rw [List.mem_singleton.mp hu] at hx
        exact hga hx
    · intro x hx hu
      rcases List.mem_append.mp hu with hu | hu
      · exact h.del_upd x hx hu
      · rw [List.mem_singleton.mp hu] at hx
        exact hgd hx

/-- Helper: the three passes preserve the invariant. -/
theorem addPass_ok (ms : List String) :
    ∀ s : PartState, PartOk s → PartOk (addPass s ms) := by
  induction ms with
  | nil => intro s h; exact h
  | cons m ms ih => intro s h; exact ih (addStep s m) (addStep_ok h m)

/-- Helper: `delPass` preserves the invariant. -/
theorem delPass_ok (ms : List String) :
    ∀ s : PartState, PartOk s → PartOk (delPass s ms) := by
  induction ms with
  | nil => intro s h; exact h
  | cons m ms ih => intro s h; exact ih (delStep s m) (delStep_ok h m)

/-- Helper: `updPass` preserves the invariant. -/
theorem updPass_ok (ms : List String) :
    ∀ s : PartState, PartOk s → PartOk (updPass s ms) := by
  induction ms with
  | nil => intro s h; exact h
  | cons m ms ih => intro s h; exact ih (updStep s m) (updStep_ok h m)

/-- Helper: the processed set only grows, step versions. -/
theorem addStep_mem_processed {s : PartState} {m0 x : String}
    (hx : x ∈ s.processedMessageIds) :
    x ∈ (addStep s m0).processedMessageIds := by
  unfold addStep
  by_cases hm : m0 ∈ s.processedMessageIds
  · rwa [if_pos hm]
  · rw [if_neg hm]; exact List.mem_append_left _ hx

/-- Helper: the processed set only grows under `delStep`. -/
theorem delStep_mem_processed {s : PartState} {m0 x : String}
    (hx : x ∈ s.processedMessageIds) :
    x ∈ (delStep s m0).processedMessageIds := by
  unfold delStep
  by_cases hm : m0 ∈ s.processedMessageIds
  · rwa [if_pos hm]
  · rw [if_neg hm]; exact List.mem_append_left _ hx

/-- Helper: the processed set only grows under `updStep`. -/
theorem updStep_mem_processed {s : PartState} {m0 x : String}
    (hx : x ∈ s.processedMessageIds) :
    x ∈ (updStep s m0).processedMessageIds := by
  unfold updStep
  by_cases hg : m0 ∈ s.processedMessageIds ∨ m0 ∈ s.messagesToAdd ∨
      m0 ∈ s.messagesToDelete
  · rwa [if_pos hg]
  · rw [if_neg hg]; exact List.mem_append_left _ hx

/-- Helper: the processed set only grows under the passes. -/
theorem addPass_mem_processed (ms : List String) :
    ∀ (s : PartState) (x : String), x ∈ s.processedMessageIds →
      x ∈ (addPass s ms).processedMessageIds := by
  induction ms with
  | nil => intro s x hx; exact hx
  | cons m ms ih => intro s x hx; exact ih (addStep s m) x (addStep_mem_processed hx)

/-- Helper: the processed set only grows under `delPass`. -/
theorem delPass_mem_processed (ms : List String) :
    ∀ (s : PartState) (x : String), x ∈ s.processedMessageIds →
      x ∈ (delPass s ms).processedMessageIds := by
  induction ms with
  | nil => intro s x hx; exact hx
  | cons m ms ih => intro s x hx; exact ih (delStep s m) x (delStep_mem_processed hx)

/-- Helper: the processed set only grows under `updPass`. -/
theorem updPass_mem_processed (ms : List String) :
    ∀ (s : PartState) (x : String), x ∈ s.processedMessageIds →
      x ∈ (updPass s ms).processedMessageIds := by
  induction ms with
  | nil => intro s x hx; exact hx
  | cons m ms ih => intro s x hx; exact ih (updStep s m) x (updStep_mem_processed hx)

/-- Helper: after its own step, an id is processed. -/
theorem addStep_self (s : PartState) (m0 : String) :
    m0 ∈ (addStep s m0).processedMessageIds := by
  unfold addStep
  by_cases hm : m0 ∈ s.processedMessageIds
  · rwa [if_pos hm]
  · rw [if_neg hm]; exact List.mem_append_right _ (List.mem_singleton_self m0)

/-- Helper: after its own `delStep`, an id is processed. -/
theorem delStep_self (s : PartState) (m0 : String) :
    m0 ∈ (delStep s m0).processedMessageIds := by
  unfold delStep
  by_cases hm : m0 ∈ s.processedMessageIds
  · rwa [if_pos hm]
  · rw [if_neg hm]; exact List.mem_append_right _ (List.mem_singleton_self m0)

/-- Helper: after its own `updStep`, an id is processed (the skip branch
relies on the invariant: an id found in a bucket is already processed). -/
theorem updStep_self {s : PartState} (h : PartOk s) (m0 : String) :
    m0 ∈ (updStep s m0).processedMessageIds := by
  unfold updStep
  by_cases hg : m0 ∈ s.processedMessageIds ∨ m0 ∈ s.messagesToAdd ∨
      m0 ∈ s.messagesToDelete
  · rw [if_pos hg]
    rcases hg with h1 | h1 | h1
    · exact h1
    · exact h.add_sub m0 h1
    · exact h.del_sub m0 h1
  · rw [if_neg hg]; exact List.mem_append_right _ (List.mem_singleton_self m0)

/-- Helper: every id of the pass input ends up processed. -/
theorem addPass_input_processed (ms : List String) :
    ∀ (s : PartState) (m : String), m ∈ ms →
      m ∈ (addPass s ms).processedMessageIds := by
  induction ms with
  | nil => intro s m hm; simp at hm
  | cons m0 ms ih =>
      intro s m hm
      rcases List.mem_cons.mp hm with heq | hin
      · rw [heq]
        exact addPass_mem_processed ms (addStep s m0) m0 (addStep_self s m0)
      · exact ih (addStep s m0) m hin

/-- Helper: every id of the `delPass` input ends up processed. -/
theorem delPass_input_processed (ms : List String) :
    ∀ (s : PartState) (m : String), m ∈ ms →
      m ∈ (delPass s ms).processedMessageIds := by
  induction ms with
  | nil => intro s m hm; simp at hm
  | cons m0 ms ih =>
      intro s m hm
      rcases List.mem_cons.mp hm with heq | hin
      · rw [heq]
        exact delPass_mem_processed ms (delStep s m0) m0 (delStep_self s m0)
      · exact ih (delStep s m0) m hin

/-- Helper: every id of the `updPass` input ends up processed. -/
theorem updPass_input_processed (ms : List String) :
    ∀ (s : PartState) (m : String), PartOk s → m ∈ ms →
      m ∈ (updPass s ms).processedMessageIds := by
  induction ms with
  | nil => intro s m _ hm; simp at hm
  | cons m0 ms ih =>
      intro s m h hm
      rcases List.mem_cons.mp hm with heq | hin
      · rw [heq]
        exact updPass_mem_processed ms (updStep s m0) m0 (updStep_self h m0)
      · exact ih (updStep s m0) m (updStep_ok h m0) hin

/-- Helper: `processEntry` preserves the invariant. -/
theorem processEntry_ok {s : PartState} (h : PartOk s) (e : HistoryEntry) :
    PartOk (processEntry s e) :=
  updPass_ok _ _ (delPass_ok _ _ (addPass_ok _ _ h))

/-- Helper: `processEntry` only grows the processed set. -/
theorem processEntry_mem_processed {s : PartState} {e : HistoryEntry}
    {x : String} (hx : x ∈ s.processedMessageIds) :
    x ∈ (processEntry s e).processedMessageIds :=
  updPass_mem_processed _ _ _
    (delPass_mem_processed _ _ _ (addPass_mem_processed _ _ _ hx))

/-- Helper: every id occurring in an entry is processed afterwards. -/
theorem processEntry_covers {s : PartState} {e : HistoryEntry} {m : String}
    (h : PartOk s)
    (hm : m ∈ e.messagesAdded ∨ m ∈ e.messagesDeleted ∨
      m ∈ e.labelsAdded ∨ m ∈ e.labelsRemoved) :
    m ∈ (processEntry s e).processedMessageIds := by
  unfold processEntry
  rcases hm with h1 | h1 | h1 | h1
  · exact updPass_mem_processed _ _ _
      (delPass_mem_processed _ _ _ (addPass_input_processed _ _ _ h1))
  · exact updPass_mem_processed _ _ _ (delPass_input_processed _ _ _ h1)
  · exact updPass_input_processed _ _ _
      (delPass_ok _ _ (addPass_ok _ _ h)) (List.mem_append_left _ h1)
  · exact updPass_input_processed _ _ _
      (delPass_ok _ _ (addPass_ok _ _ h)) (List.mem_append_right _ h1)

/-- Helper: folding `processEntry` preserves the invariant. -/
theorem foldl_entries_ok (es : List HistoryEntry) :
    ∀ s : PartState, PartOk s → PartOk (es.foldl processEntry s) := by
  induction es with
  | nil => intro s h; exact h
  | cons e es ih => intro s h; exact ih (processEntry s e) (processEntry_ok h e)

/-- Helper: folding `processEntry` only grows the processed set. -/
theorem foldl_entries_mem (es : List HistoryEntry) :
    ∀ (s : PartState) (x : String), x ∈ s.processedMessageIds →
      x ∈ (es.foldl processEntry s).processedMessageIds := by
  induction es with
  | nil => intro s x hx; exact hx
  | cons e es ih =>
      intro s x hx
      exact ih (processEntry s e) x (processEntry_mem_processed hx)

/-- Helper: every occurring id ends up processed. -/
theorem foldl_entries_covers (es : List HistoryEntry) :
    ∀ (s : PartState) (m : String), PartOk s →
      (∃ e ∈ es, m ∈ e.messagesAdded ∨ m ∈ e.messagesDeleted ∨
        m ∈ e.labelsAdded ∨ m ∈ e.labelsRemoved) →
      m ∈ (es.foldl processEntry s).processedMessageIds := by
  induction es with
  | nil =>
      intro s m _ hm
      rcases hm with ⟨e, he, _⟩
      simp at he
  | cons e es ih =>
      intro s m h hm
      rcases hm with ⟨ex, hex, hmx⟩
      rcases List.mem_cons.mp hex with heq | hin
      · rw [heq] at hmx
        exact foldl_entries_mem es (processEntry s e) m
          (processEntry_covers h hmx)
      · exact ih (processEntry s e) m (processEntry_ok h e) ⟨ex, hin, hmx⟩

/-- Helper: the empty state satisfies the invariant. -/
theorem partOk_empty :
    PartOk { processedMessageIds := [], messagesToAdd := [],
             messagesToDelete := [], messagesToUpdate := [] } := by
  constructor <;> intro m hm <;> simp at hm

/-- C6, amended: `processHistoryChanges` splits the occurring message ids
into three pairwise-disjoint buckets, and every occurring id lands in
exactly one of them; but the precedence is positional — an id is assigned to
the bucket of its FIRST occurrence in entry order (within one entry: adds,
then deletes, then label changes), not globally add over delete over update
(see the counterexample, where an id deleted in an earlier entry and added
in a later one lands in the delete bucket). -/
theorem processHistoryChanges_partition (entries : List HistoryEntry) :
    (∀ m, m ∈ (processHistoryChanges entries).messagesToAdd →
        m ∉ (processHistoryChanges entries).messagesToDelete
        ∧ m ∉ (processHistoryChanges entries).messagesToUpdate)
    ∧ (∀ m, m ∈ (processHistoryChanges entries).messagesToDelete →
        m ∉ (processHistoryChanges entries).messagesToUpdate)
    ∧ (∀ m, occursIn entries m →
        m ∈ (processHistoryChanges entries).messagesToAdd
        ∨ m ∈ (processHistoryChanges entries).messagesToDelete
        ∨ m ∈ (processHistoryChanges entries).messagesToUpdate) := by
  have hok : PartOk (processHistoryChanges entries) :=
    foldl_entries_ok entries _ partOk_empty
  refine ⟨fun m hm => ⟨hok.add_del m hm, hok.add_upd m hm⟩,
          fun m hm => hok.del_upd m hm,
          fun m hm => hok.cover m ?_⟩
  exact foldl_entries_covers entries _ m partOk_empty hm

/-- Witness for C6: the occurring id "m1" of the delete-then-add history is
covered by exactly one bucket and is absent from the update bucket. -/
theorem processHistoryChanges_partition_witness :
    ("m1" ∈ (processHistoryChanges entriesDeleteThenAdd).messagesToAdd
      ∨ "m1" ∈ (processHistoryChanges entriesDeleteThenAdd).messagesToDelete
      ∨ "m1" ∈ (processHistoryChanges entriesDeleteThenAdd).messagesToUpdate)
    ∧ "m1" ∉ (processHistoryChanges entriesDeleteThenAdd).messagesToUpdate :=
  ⟨(processHistoryChanges_partition entriesDeleteThenAdd).2.2 "m1"
     ⟨{ messagesAdded := ["m1"], messagesDeleted := [],
        labelsAdded := [], labelsRemoved := [] },
      by decide, Or.inl (by decide)⟩,
   (processHistoryChanges_partition entriesDeleteThenAdd).2.1 "m1"
     (by decide)⟩

end EmailSync
